import Mathlib

/-!
Verification development for the Go file-integrity monitor
(`go/07_basic_file_integrity_monitor/src/main.go`).

The Go source is shallowly embedded: the filesystem is an explicit value
(`FSys`), machine words are `Nat` reduced modulo `2 ^ 32`, fallible
operations return `Option`/`Except`, and the nondeterministic iteration
order of a Go `map` is made explicit by passing the map as an association
list in some iteration order.
-/

namespace FIM

/-! ## SHA-256 (model of the Go standard library `crypto/sha256`, FIPS 180-4)
and lowercase hex encoding (model of `encoding/hex.EncodeToString`).
`hashFile` in the source streams file bytes through `sha256.New()` and hex
encodes the digest; byte values are `Nat`s below 256, 32-bit words are
`Nat`s reduced by `w32`. -/

def w32 (n : Nat) : Nat := n % 4294967296

def rotr (n x : Nat) : Nat := w32 ((x >>> n) ||| (x <<< (32 - n)))

def shaCh (x y z : Nat) : Nat := (x &&& y) ^^^ ((x ^^^ 4294967295) &&& z)

def shaMaj (x y z : Nat) : Nat := (x &&& y) ^^^ (x &&& z) ^^^ (y &&& z)

def bigSigZero (x : Nat) : Nat := rotr 2 x ^^^ rotr 13 x ^^^ rotr 22 x

def bigSigOne (x : Nat) : Nat := rotr 6 x ^^^ rotr 11 x ^^^ rotr 25 x

def smallSigZero (x : Nat) : Nat := rotr 7 x ^^^ rotr 18 x ^^^ (x >>> 3)

def smallSigOne (x : Nat) : Nat := rotr 17 x ^^^ rotr 19 x ^^^ (x >>> 10)

def K256 : List Nat :=
  [1116352408, 1899447441, 3049323471, 3921009573, 961987163,
   1508970993, 2453635748, 2870763221, 3624381080, 310598401,
   607225278, 1426881987, 1925078388, 2162078206, 2614888103,
   3248222580, 3835390401, 4022224774, 264347078, 604807628,
   770255983, 1249150122, 1555081692, 1996064986, 2554220882,
   2821834349, 2952996808, 3210313671, 3336571891, 3584528711,
   113926993, 338241895, 666307205, 773529912, 1294757372,
   1396182291, 1695183700, 1986661051, 2177026350, 2456956037,
   2730485921, 2820302411, 3259730800, 3345764771, 3516065817,
   3600352804, 4094571909, 275423344, 430227734, 506948616,
   659060556, 883997877, 958139571, 1322822218, 1537002063,
   1747873779, 1955562222, 2024104815, 2227730452, 2361852424,
   2428436474, 2756734187, 3204031479, 3329325298]

structure Hash8 where
  a : Nat
  b : Nat
  c : Nat
  d : Nat
  e : Nat
  f : Nat
  g : Nat
  h : Nat

def sha256Init : Hash8 :=
  ⟨1779033703, 3144134277, 1013904242, 2773480762, 1359893119, 2600822924, 528734635, 1541459225⟩

def msgSchedule (block : List Nat) : List Nat :=
  let w16 := (List.range 16).map (fun i => ((block.drop (4 * i)).take 4).foldl (fun a b => a * 256 + b) 0)
  (List.range 48).foldl
    (fun ws _ =>
      let t := ws.length
      ws ++ [w32 (smallSigOne (ws.getD (t - 2) 0) + ws.getD (t - 7) 0 + smallSigZero (ws.getD (t - 15) 0) + ws.getD (t - 16) 0)])
    w16

def shaRound (v : Hash8) (kw : Nat) : Hash8 :=
  let t1 := w32 (v.h + bigSigOne v.e + shaCh v.e v.f v.g + kw)
  let t2 := w32 (bigSigZero v.a + shaMaj v.a v.b v.c)
  ⟨w32 (t1 + t2), v.a, v.b, v.c, w32 (v.d + t1), v.e, v.f, v.g⟩

def processBlock (hs : Hash8) (block : List Nat) : Hash8 :=
  let ws := msgSchedule block
  let v := (List.zipWith (fun k w => w32 (k + w)) K256 ws).foldl shaRound hs
  ⟨w32 (hs.a + v.a), w32 (hs.b + v.b), w32 (hs.c + v.c), w32 (hs.d + v.d),
   w32 (hs.e + v.e), w32 (hs.f + v.f), w32 (hs.g + v.g), w32 (hs.h + v.h)⟩

/-- SHA-256 padding: append 0x80, zero bytes to 56 mod 64, then the 64-bit
big-endian bit length. -/
def padMsg (m : List Nat) : List Nat :=
  let L := m.length
  let z := (120 - ((L + 1) % 64)) % 64
  m ++ [128] ++ List.replicate z 0 ++ (List.range 8).map (fun i => ((L * 8) >>> (8 * (7 - i))) % 256)

def chunks64Go (cur : List Nat) : List Nat → List (List Nat)
  | [] => if cur.isEmpty then [] else [cur.reverse]
  | b :: rest =>
    if cur.length == 63 then (cur.reverse ++ [b]) :: chunks64Go [] rest
    else chunks64Go (b :: cur) rest

/-- Split a (padded) byte sequence into 64-byte blocks. -/
def chunks64 (l : List Nat) : List (List Nat) := chunks64Go [] l

def wordBytes (w : Nat) : List Nat :=
  [(w >>> 24) % 256, (w >>> 16) % 256, (w >>> 8) % 256, w % 256]

/-- SHA-256 digest of a byte sequence, as 32 bytes. -/
def sha256 (m : List Nat) : List Nat :=
  let hs := (chunks64 (padMsg m)).foldl processBlock sha256Init
  wordBytes hs.a ++ wordBytes hs.b ++ wordBytes hs.c ++ wordBytes hs.d ++
  wordBytes hs.e ++ wordBytes hs.f ++ wordBytes hs.g ++ wordBytes hs.h

/-- The lowercase hex table `"0123456789abcdef"` of `encoding/hex`. -/
def hexDigitChar (n : Nat) : Char :=
  match n with
  | 0 => '0' | 1 => '1' | 2 => '2' | 3 => '3' | 4 => '4' | 5 => '5' | 6 => '6' | 7 => '7'
  | 8 => '8' | 9 => '9' | 10 => 'a' | 11 => 'b' | 12 => 'c' | 13 => 'd' | 14 => 'e' | 15 => 'f'
  | _ => 'x'

/-- Per byte, `encoding/hex` writes `hextable[b>>4]` then `hextable[b&0x0f]`. -/
def byteToHex (b : Nat) : List Char := [hexDigitChar (b >>> 4), hexDigitChar (b % 16)]

/-- Lowercase hexadecimal encoding of the SHA-256 digest (the value
`hex.EncodeToString(h.Sum(nil))` computed by `hashFile`). -/
def sha256hex (m : List Nat) : String := String.mk ((sha256 m).flatMap byteToHex)

/-! ## Filesystem model

A snapshot of the filesystem: regular files with their byte content (in the
lexical order a directory walk visits them), directories, paths whose
`os.Stat`/`os.Open` fails with a non-`IsNotExist` error (e.g. permission
denied), and per-path modification times (metadata that no embedded
function reads; it is carried so content-only sensitivity is a statement,
not a tautology). A path absent from all three lists does not exist. -/

structure FSys where
  files : List (String × List Nat)
  dirs : List String
  denied : List String
  mtime : String → Nat

def FSys.fileKeys (fs : FSys) : List String := fs.files.map Prod.fst

def FSys.content (fs : FSys) (p : String) : Option (List Nat) :=
  (fs.files.find? (fun q => q.1 == p)).map Prod.snd

/-- Model of `hashFile` (main.go:40-51): open the file, stream it through SHA-256,
hex encode. Fails (`none`) when the file cannot be opened/read. -/
def hashFile (fs : FSys) (p : String) : Option String :=
  if p ∈ fs.denied then none
  else (fs.content p).map (fun c => sha256hex c)

/-- String prefix test on the underlying character lists (the semantics of
Go's `strings.HasPrefix`; `filepath.IsAbs` on Unix is `HasPrefix(p, "/")`). -/
def strHasPrefix (a b : String) : Bool := a.data.isPrefixOf b.data

/-- Whether `p` lies beneath directory `d`, i.e. `d ++ "/"` is a prefix of `p`. -/
def underDir (d p : String) : Bool := strHasPrefix (d ++ "/") p

/-- Whether `filepath.Walk` on directory `d` aborts with the callback's error when
a stat inside the tree fails. -/
def walkDenied (fs : FSys) (d : String) : Bool := fs.denied.any (fun q => underDir d q)

/-- The regular files `filepath.Walk` appends when walking directory `d`
(main.go:73-78), in visit order. -/
def walkFiles (fs : FSys) (d : String) : List String :=
  fs.fileKeys.filter (fun p => underDir d p)

/-- Model of `filepath.Abs`: paths already absolute are returned as given; relative
paths are resolved against the working directory (`filepath.Clean`
normalisation is not modelled; inputs in the theorems are clean). -/
def filepathAbs (cwd p : String) : String :=
  if strHasPrefix "/" p then p else cwd ++ "/" ++ p

/-- The `addFile` closure inside `collectFiles` (main.go:57-82): stat the
absolute path; a non-existent path is skipped silently, a directory is
walked recursively, a regular file is appended. -/
def addFile (fs : FSys) (cwd p : String) (acc : List String) : Except String (List String) :=
  let abs := filepathAbs cwd p
  if abs ∈ fs.denied then .error abs
  else if abs ∈ fs.dirs then
    if walkDenied fs abs then .error abs else .ok (acc ++ walkFiles fs abs)
  else if abs ∈ fs.fileKeys then .ok (acc ++ [abs])
  else .ok acc

/-- Model of `collectFiles` (main.go:55-99): with a non-empty explicit list, resolve
relative entries against `base` and add each; otherwise add the root. -/
def collectFiles (fs : FSys) (cwd root : String) (list : List String) (base : String) :
    Except String (List String) :=
  if list.length > 0 then
    list.foldlM
      (fun acc p =>
        let p := if base ≠ "" ∧ ¬ (strHasPrefix "/" p) then base ++ "/" ++ p else p
        addFile fs cwd p acc)
      []
  else addFile fs cwd root []

/-- The `Report` struct (main.go:35-37). -/
structure Report where
  Path : String
  Status : String
  OldHash : String
  NewHash : String
  Message : String
deriving DecidableEq

/-- Go map lookup `base[f]` on a map given as an association list with
unique keys. -/
def lookupVal (base : List (String × String)) (k : String) : Option String :=
  (base.find? (fun p => p.1 == k)).map Prod.snd

/-- One iteration of the first loop of `verifyBaseline` (main.go:126-144):
mark the path found, then classify it against the baseline. The state is
(`found` set, report so far). -/
def verifyStep (fs : FSys) (base : List (String × String))
    (acc : List String × List Report) (f : String) : List String × List Report :=
  let found := f :: acc.1
  match hashFile fs f with
  | none =>
    match lookupVal base f with
    | some old => (found, acc.2 ++ [⟨f, "DELETED", old, "", "File deleted"⟩])
    | none => (found, acc.2)
  | some h =>
    match lookupVal base f with
    | some old =>
      if old ≠ h then (found, acc.2 ++ [⟨f, "MODIFIED", old, h, "Hash mismatch"⟩])
      else (found, acc.2 ++ [⟨f, "OK", old, "", ""⟩])
    | none => (found, acc.2 ++ [⟨f, "ADDED", "", h, "New file"⟩])

/-- The comparison core of `verifyBaseline` (main.go:123-151), after the
baseline has been loaded. `base` is the loaded map in the iteration order
the Go runtime happens to choose for the final `range base` sweep. -/
def verifyCore (fs : FSys) (base : List (String × String)) (files : List String) :
    List Report :=
  let st := files.foldl (verifyStep fs base) ([], [])
  st.2 ++ (base.filter (fun p => !(st.1.contains p.1))).map
    (fun p => ⟨p.1, "DELETED", p.2, "", "File deleted"⟩)

/-! ## JSON serialization (model of `encoding/json` on `map[string]string`)

`createBaseline` persists the baseline with `json.MarshalIndent(b, "  ", "  ")`
and `verifyBaseline` reads it back with `json.Unmarshal` into a
`map[string]string`. Only the flat string-to-string object shape is
modelled. One fidelity note: on a syntax error `json.Unmarshal` leaves the
target untouched (it validates the whole input first), which the model
mirrors by returning `none`; valid JSON of the wrong shape also yields
`none` here, while Go may partially fill the map before reporting the type
error — no theorem below depends on that case. -/

def hexVal (c : Char) : Option Nat :=
  if '0' ≤ c ∧ c ≤ '9' then some (c.toNat - 48)
  else if 'a' ≤ c ∧ c ≤ 'f' then some (c.toNat - 87)
  else if 'A' ≤ c ∧ c ≤ 'F' then some (c.toNat - 55)
  else none

def mapConsChar (c : Char) (o : Option (List Char × List Char)) :
    Option (List Char × List Char) :=
  o.map (fun r => (c :: r.1, r.2))

/-- Combined value of four hex digits, `none` if any is not a hex digit. -/
def hex4 (a b c d : Char) : Option Nat :=
  match hexVal a, hexVal b, hexVal c, hexVal d with
  | some x1, some x2, some x3, some x4 => some (((x1 * 16 + x2) * 16 + x3) * 16 + x4)
  | _, _, _, _ => none

/-- Decoder for what follows `\u`: four hex digits; a high surrogate
followed by an escaped low surrogate combines into one scalar; a lone
surrogate decodes to U+FFFD (as `encoding/json` does). Returns the decoded
character and the remaining input. -/
def parseU : List Char → Option (Char × List Char)
  | a :: b :: c :: d :: r =>
    match hex4 a b c d with
    | none => none
    | some n =>
      if 0xD800 ≤ n ∧ n < 0xDC00 then
        match r with
        | e2 :: u2 :: a2 :: b2 :: c2 :: d2 :: r2 =>
          if e2 = '\\' ∧ u2 = 'u' then
            match hex4 a2 b2 c2 d2 with
            | some m =>
              if 0xDC00 ≤ m ∧ m < 0xE000 then
                some (Char.ofNat (0x10000 + (n - 0xD800) * 1024 + (m - 0xDC00)), r2)
              else some (Char.ofNat 0xFFFD, r)
            | none => some (Char.ofNat 0xFFFD, r)
          else some (Char.ofNat 0xFFFD, r)
        | _ => some (Char.ofNat 0xFFFD, r)
      else if 0xDC00 ≤ n ∧ n < 0xE000 then some (Char.ofNat 0xFFFD, r)
      else some (Char.ofNat n, r)
  | _ => none

/-- Decoder for what follows a backslash inside a JSON string: the decoded
character and the remaining input, `none` on an invalid escape. -/
def parseEsc : List Char → Option (Char × List Char)
  | [] => none
  | e :: r =>
    if e = 'u' then parseU r
    else if e = '"' then some ('"', r)
    else if e = '\\' then some ('\\', r)
    else if e = '/' then some ('/', r)
    else if e = 'b' then some (Char.ofNat 8, r)
    else if e = 'f' then some (Char.ofNat 12, r)
    else if e = 'n' then some ('\n', r)
    else if e = 'r' then some ('\r', r)
    else if e = 't' then some ('\t', r)
    else none

/-- Body of a JSON string after the opening quote: consume characters and
escapes until the closing quote, as `encoding/json`'s decoder does (raw
control characters are invalid). Every step consumes at least one input
character, so `fuel := cs.length` is always sufficient. -/
def parseStrBody : Nat → List Char → Option (List Char × List Char)
  | 0, _ => none
  | _, [] => none
  | fuel + 1, c :: rest =>
    if c = '"' then some ([], rest)
    else if c = '\\' then
      match parseEsc rest with
      | some (ch, r2) => mapConsChar ch (parseStrBody fuel r2)
      | none => none
    else if c.toNat < 0x20 then none
    else mapConsChar c (parseStrBody fuel rest)

def isWSChar (c : Char) : Bool := c = ' ' ∨ c = '\t' ∨ c = '\n' ∨ c = '\r'

def skipWS : List Char → List Char
  | [] => []
  | c :: r => if isWSChar c then skipWS r else c :: r

def parseJString (cs : List Char) : Option (String × List Char) :=
  match cs with
  | [] => none
  | c :: r => if c = '"' then (parseStrBody r.length r).map (fun p => (String.mk p.1, p.2)) else none

/-- Members of a JSON object, positioned at a key string; `fuel` bounds the
number of members (callers pass the input length). -/
def parseMembers (fuel : Nat) (cs : List Char) : Option (List (String × String) × List Char) :=
  match fuel with
  | 0 => none
  | fuel + 1 =>
    match parseJString cs with
    | none => none
    | some (k, r1) =>
      match skipWS r1 with
      | [] => none
      | c :: r2 =>
        if c = ':' then
          match parseJString (skipWS r2) with
          | none => none
          | some (v, r3) =>
            match skipWS r3 with
            | [] => none
            | c2 :: r4 =>
              if c2 = ',' then
                (parseMembers fuel (skipWS r4)).map (fun p => ((k, v) :: p.1, p.2))
              else if c2 = '}' then some ([(k, v)], r4)
              else none
        else none

/-- Model of `json.Unmarshal(data, &base)` for a `map[string]string` target: parse a
single JSON object (entries in textual order) followed only by whitespace;
`none` models a returned error. -/
def jsonUnmarshalBaseline (s : String) : Option (List (String × String)) :=
  match skipWS s.data with
  | [] => none
  | c :: r =>
    if c = '{' then
      match skipWS r with
      | [] => none
      | c2 :: r2 =>
        if c2 = '}' then if (skipWS r2).isEmpty then some [] else none
        else
          match parseMembers (c2 :: r2).length (c2 :: r2) with
          | some (l, rest) => if (skipWS rest).isEmpty then some l else none
          | none => none
    else none

/-- Go map assignment `m[k] = v`. -/
def mapInsert (m : List (String × String)) (k v : String) : List (String × String) :=
  if m.any (fun p => p.1 == k) then m.map (fun p => if p.1 == k then (k, v) else p)
  else m ++ [(k, v)]

/-- Building the Go map from decoded entries: successive assignment, later
duplicate keys overwriting earlier ones. -/
def buildMap (l : List (String × String)) : List (String × String) :=
  l.foldl (fun m p => mapInsert m p.1 p.2) []

def loadBaseline (data : String) : Option (List (String × String)) :=
  (jsonUnmarshalBaseline data).map buildMap

/-- Model of `verifyBaseline` (main.go:115-152). `readResult` is the outcome of
`os.ReadFile(bfile)` (`none` = read error). The error returned by
`json.Unmarshal` on line 121 is discarded, so on parse failure `base`
remains the nil (empty) map and verification proceeds. The final map sweep
is shown here in the parser's entry order; theorems about order
nondeterminism quantify `verifyCore` over permutations of the map. -/
def verifyBaseline (readResult : Option String) (fs : FSys) (files : List String) :
    Option (List Report) :=
  match readResult with
  | none => none
  | some data => some (verifyCore fs ((loadBaseline data).getD []) files)

/-- Model of `encoding/json` string escaping (HTML escaping on, as in `json.Marshal`):
quote and backslash, `\n` `\r` `\t`, other control bytes and `<` `>` `&` as
`\u00XX`, U+2028/U+2029 as `\u202X`, everything else written raw. -/
def encChar (c : Char) : List Char :=
  if c = '"' ∨ c = '\\' then ['\\', c]
  else if c = '\n' then ['\\', 'n']
  else if c = '\r' then ['\\', 'r']
  else if c = '\t' then ['\\', 't']
  else if c.toNat < 0x20 ∨ c = '<' ∨ c = '>' ∨ c = '&' then
    ['\\', 'u', '0', '0', hexDigitChar (c.toNat >>> 4), hexDigitChar (c.toNat % 16)]
  else if c.toNat = 0x2028 ∨ c.toNat = 0x2029 then
    ['\\', 'u', '2', '0', '2', hexDigitChar (c.toNat % 16)]
  else [c]

def encStr (s : String) : List Char := '"' :: s.data.flatMap encChar ++ ['"']

def renderEntry (p : String × String) : List Char := encStr p.1 ++ [':', ' '] ++ encStr p.2

def renderTail : List (String × String) → List Char
  | [] => []
  | [p] => renderEntry p ++ ['\n', ' ', ' ', '}']
  | p :: q :: rest => renderEntry p ++ [',', '\n', ' ', ' ', ' ', ' '] ++ renderTail (q :: rest)

/-- The exact text `json.MarshalIndent(b, "  ", "  ")` produces for a
`map[string]string` whose sorted entry sequence is `l`. -/
def renderObj (l : List (String × String)) : List Char :=
  match l with
  | [] => ['{', '}']
  | _ => '{' :: '\n' :: ' ' :: ' ' :: ' ' :: ' ' :: renderTail l

def sortByKey (l : List (String × String)) : List (String × String) :=
  l.insertionSort (fun a b => a.1 ≤ b.1)

/-- Model of `json.MarshalIndent(b, "  ", "  ")` (main.go:110): Go marshals map keys
in sorted order (byte-wise string order, which on valid UTF-8 agrees with
the code-point order used here). -/
def marshalBaseline (b : List (String × String)) : String :=
  String.mk (renderObj (sortByKey b))

/-- Model of `createBaseline` (main.go:102-112): hash each file, skipping hash
failures, marshal the resulting map; the returned string is the content of
the artifact written with `os.WriteFile`. -/
def createBaseline (fs : FSys) (files : List String) : String :=
  marshalBaseline (files.foldl (fun b f =>
    match hashFile fs f with
    | some h => mapInsert b f h
    | none => b) [])

/-- The exit-code decision after a verification run (main.go:243-248):
the process exits 1 when `len(r) > 0` and 0 otherwise. -/
def verifyExitCode (r : List Report) : Nat := if r.length > 0 then 1 else 0

/-! ## Proof-support definitions and concrete fixtures -/

/-- Restatement of the classification a single path receives in the first
loop of `verifyBaseline` (`none` = no report line); proven equivalent to
`verifyStep` below and used to reason about `verifyCore`. -/
def classifyFile (fs : FSys) (base : List (String × String)) (f : String) : Option Report :=
  match hashFile fs f with
  | none => (lookupVal base f).map (fun old => ⟨f, "DELETED", old, "", "File deleted"⟩)
  | some h =>
    match lookupVal base f with
    | some old =>
      if old ≠ h then some ⟨f, "MODIFIED", old, h, "Hash mismatch"⟩
      else some ⟨f, "OK", old, "", ""⟩
    | none => some ⟨f, "ADDED", "", h, "New file"⟩

/-- Report line of the final baseline sweep (main.go:146-150). -/
def deletedEntry (p : String × String) : Report := ⟨p.1, "DELETED", p.2, "", "File deleted"⟩

/-- Number of Diff Entries in a report whose `Path` is `p`. -/
def pathCount (r : List Report) (p : String) : Nat :=
  (r.filter (fun e => e.Path == p)).length

/-- Fixture: an empty filesystem. -/
def fsEmpty : FSys := ⟨[], [], [], fun _ => 0⟩

/-- Fixture: one regular file `/a` with content "hi". -/
def fsOne : FSys := ⟨[("/a", [104, 105])], [], [], fun _ => 0⟩

/-- Fixture: same files and bytes as `fsOne`, different modification time. -/
def fsOneTouched : FSys := ⟨[("/a", [104, 105])], [], [], fun _ => 7⟩

/-- Fixture: directory `/d` containing the single file `/d/f`. -/
def fsDirDup : FSys := ⟨[("/d/f", [104])], ["/d"], [], fun _ => 0⟩

/-! ## Structure of `verifyCore` -/

set_option maxRecDepth 40000 in
/-- Validation of the SHA-256 embedding against the FIPS 180-4 test vector
for the message "abc". -/
theorem sha256hex_known_vector :
    sha256hex [97, 98, 99] =
      "ba7816bf8f01cfea414140de5dae2223b00361a396177a9cb410ff61f20015ad" := by
  rfl

theorem verifyStep_eq (fs : FSys) (base : List (String × String))
    (acc : List String × List Report) (f : String) :
    verifyStep fs base acc f = (f :: acc.1, acc.2 ++ (classifyFile fs base f).toList) := by
  unfold verifyStep classifyFile
  rcases hashFile fs f with _ | h
  · rcases lookupVal base f with _ | old <;> simp
  · rcases lookupVal base f with _ | old
    · simp
    · by_cases hne : old ≠ h <;> simp [hne]

theorem foldl_verifyStep (fs : FSys) (base : List (String × String)) :
    ∀ (files : List String) (found : List String) (r : List Report),
      files.foldl (verifyStep fs base) (found, r) =
        (files.reverse ++ found, r ++ files.filterMap (classifyFile fs base)) := by
  intro files
  induction files with
  | nil => intro found r; simp
  | cons f t ih =>
    intro found r
    rw [List.foldl_cons, verifyStep_eq, ih, List.filterMap_cons]
    rcases h : classifyFile fs base f with _ | e <;> simp [h]

theorem verifyCore_eq (fs : FSys) (base : List (String × String)) (files : List String) :
    verifyCore fs base files =
      files.filterMap (classifyFile fs base) ++
        (base.filter (fun p => !(files.contains p.1))).map deletedEntry := by
  unfold verifyCore deletedEntry
  rw [foldl_verifyStep]
  simp only [List.nil_append, List.append_nil]
  congr 1
  apply congrArg
  apply List.filter_congr
  intro p _
  simp [List.contains, List.elem_eq_mem]

theorem classifyFile_path (fs : FSys) (base : List (String × String)) (f : String)
    (e : Report) (h : classifyFile fs base f = some e) : e.Path = f := by
  unfold classifyFile at h
  rcases hh : hashFile fs f with _ | hv <;> rw [hh] at h
  · rcases hl : lookupVal base f with _ | old <;> rw [hl] at h
    · simp at h
    · simp at h; simp [← h]
  · rcases hl : lookupVal base f with _ | old <;> rw [hl] at h
    · simp at h; simp [← h]
    · by_cases hne : old ≠ hv <;> simp [hne] at h <;> simp [← h]

theorem lookupVal_isSome (base : List (String × String)) (k : String) :
    (lookupVal base k).isSome ↔ k ∈ base.map Prod.fst := by
  unfold lookupVal
  induction base with
  | nil => simp
  | cons p t ih =>
    rw [List.find?_cons]
    by_cases h : p.1 = k
    · simp [h]
    · have hbeq : (p.1 == k) = false := by simp [h]
      rw [hbeq]
      simp only [List.map_cons, List.mem_cons]
      rw [ih]
      have hk : ¬ k = p.1 := fun hkk => h hkk.symm
      simp [hk]

theorem lookupVal_mem (base : List (String × String)) (k v : String)
    (h : lookupVal base k = some v) : (k, v) ∈ base := by
  unfold lookupVal at h
  rcases hf : base.find? (fun p => p.1 == k) with _ | p
  · rw [hf] at h; simp at h
  · rw [hf] at h
    simp at h
    have hm := List.mem_of_find?_eq_some hf
    have hp := List.find?_some hf
    simp at hp
    have : p = (k, v) := by
      rcases p with ⟨a, b⟩
      simp at hp h
      simp [hp, h]
    rw [this] at hm
    exact hm

theorem classifyFile_isSome (fs : FSys) (base : List (String × String)) (f : String) :
    (classifyFile fs base f).isSome ↔
      (hashFile fs f).isSome ∨ f ∈ base.map Prod.fst := by
  rw [← lookupVal_isSome]
  unfold classifyFile
  rcases hashFile fs f with _ | h
  · rcases lookupVal base f with _ | old <;> simp
  · rcases lookupVal base f with _ | old
    · simp
    · by_cases hne : old ≠ h <;> simp [hne]

/-! ## Counting entries per path -/

theorem pathCount_append (a b : List Report) (p : String) :
    pathCount (a ++ b) p = pathCount a p + pathCount b p := by
  simp [pathCount, List.filter_append]

theorem pathCount_cons (e : Report) (r : List Report) (p : String) :
    pathCount (e :: r) p = (if e.Path = p then 1 else 0) + pathCount r p := by
  by_cases h : e.Path = p
  · simp [pathCount, List.filter_cons, h]
    omega
  · simp [pathCount, List.filter_cons, h]

theorem pathCount_filterMap (fs : FSys) (base : List (String × String)) :
    ∀ (files : List String), files.Nodup → ∀ P,
      pathCount (files.filterMap (classifyFile fs base)) P =
        if P ∈ files ∧ (classifyFile fs base P).isSome then 1 else 0 := by
  intro files
  induction files with
  | nil => intro _ P; simp [pathCount]
  | cons f t ih =>
    intro hnd P
    rw [List.nodup_cons] at hnd
    rw [List.filterMap_cons]
    rcases hc : classifyFile fs base f with _ | e
    · rw [ih hnd.2 P]
      by_cases hPf : P = f
      · subst hPf
        simp [hc, hnd.1]
      · simp [hPf]
    · have hep : e.Path = f := classifyFile_path fs base f e hc
      rw [pathCount_cons, ih hnd.2 P]
      by_cases hPf : P = f
      · subst hPf
        simp [hep, hc, hnd.1]
      · have : ¬ e.Path = P := by rw [hep]; exact fun hx => hPf hx.symm
        simp [this, hPf]

theorem pathCount_filterMap_none (fs : FSys) (base : List (String × String)) (P : String)
    (hc : classifyFile fs base P = none) :
    ∀ (files : List String), pathCount (files.filterMap (classifyFile fs base)) P = 0 := by
  intro files
  induction files with
  | nil => simp [pathCount]
  | cons f t ih =>
    rw [List.filterMap_cons]
    rcases hcf : classifyFile fs base f with _ | e
    · exact ih
    · rw [pathCount_cons, ih]
      have hep : e.Path = f := classifyFile_path fs base f e hcf
      have : ¬ e.Path = P := by
        rw [hep]
        intro hfP
        rw [hfP] at hcf
        rw [hcf] at hc
        exact Option.noConfusion hc
      simp [this]

theorem pathCount_deleted (files : List String) :
    ∀ (base : List (String × String)), (base.map Prod.fst).Nodup → ∀ P,
      pathCount ((base.filter (fun p => !(files.contains p.1))).map deletedEntry) P =
        if P ∈ base.map Prod.fst ∧ ¬ P ∈ files then 1 else 0 := by
  intro base
  induction base with
  | nil => intro _ P; simp [pathCount]
  | cons q t ih =>
    intro hnd P
    rw [List.map_cons, List.nodup_cons] at hnd
    rw [List.filter_cons]
    by_cases hq : q.1 ∈ files
    · have hcond : (!(files.contains q.1)) = false := by
        simp [List.contains, List.elem_eq_mem, hq]
      rw [hcond]
      simp only [Bool.false_eq_true, if_false]
      rw [ih hnd.2 P]
      by_cases hPq : P = q.1
      · subst hPq
        simp [hq, hnd.1]
      · by_cases hmt : P ∈ List.map Prod.fst t <;> by_cases hmf : P ∈ files <;>
          simp [List.mem_cons, hPq, hmt, hmf]
    · have hcond : (!(files.contains q.1)) = true := by
        simp [List.contains, List.elem_eq_mem, hq]
      rw [hcond]
      simp only [if_true]
      rw [List.map_cons, pathCount_cons, ih hnd.2 P]
      by_cases hPq : P = q.1
      · subst hPq
        simp [deletedEntry, hq, hnd.1]
      · have hne : ¬ (deletedEntry q).Path = P := by
          simp [deletedEntry]
          exact fun hx => hPq hx.symm
        by_cases hmt : P ∈ List.map Prod.fst t <;> by_cases hmf : P ∈ files <;>
          simp [hne, List.mem_cons, hPq, hmt, hmf]

theorem pathCount_deleted_zero (files : List String) (P : String) :
    ∀ (base : List (String × String)), ¬ P ∈ base.map Prod.fst →
      pathCount ((base.filter (fun p => !(files.contains p.1))).map deletedEntry) P = 0 := by
  intro base
  induction base with
  | nil => intro _; simp [pathCount]
  | cons q t ih =>
    intro hP
    rw [List.map_cons, List.mem_cons] at hP
    push_neg at hP
    rw [List.filter_cons]
    rcases hcond : (!(files.contains q.1)) with _ | _
    · simp only [Bool.false_eq_true, if_false]
      exact ih hP.2
    · simp only [if_true]
      rw [List.map_cons, pathCount_cons, ih hP.2]
      have : ¬ (deletedEntry q).Path = P := by
        simp [deletedEntry]
        exact fun hx => hP.1 hx.symm
      simp [this]

/-! ## Claim C1 -/

/-- C1 (counterexample): the claim "for every path P in baseline ∪
currentPaths, exactly one Diff Entry has Path = P" is false as stated:
with an empty baseline and `currentPaths = ["/x"]` where `/x` does not
exist on the filesystem, `verifyBaseline` returns a report containing no
entry at all for `/x`. -/
theorem fim_c1_counterexample :
    "/x" ∈ (["/x"] : List String) ∧ pathCount (verifyCore fsEmpty [] ["/x"]) "/x" = 0 := by
  constructor
  · decide
  · decide

/-- C1 (amended): with `currentPaths` duplicate-free and the loaded
baseline's keys unique, every path P receives at most one Diff Entry, and
exactly one if and only if P is a baseline path or a currentPaths path
whose fingerprinting succeeds; a currentPaths path that is absent from the
baseline and fails fingerprinting receives no entry. -/
theorem fim_c1_exactly_once_amended (fs : FSys) (base : List (String × String))
    (files : List String) (hf : files.Nodup) (hb : (base.map Prod.fst).Nodup) (P : String) :
    pathCount (verifyCore fs base files) P =
      if P ∈ base.map Prod.fst ∨ (P ∈ files ∧ (hashFile fs P).isSome) then 1 else 0 := by
  rw [verifyCore_eq, pathCount_append, pathCount_filterMap fs base files hf P,
    pathCount_deleted files base hb P]
  by_cases h1 : P ∈ files
  · by_cases h2 : (hashFile fs P).isSome
    · have hcs : (classifyFile fs base P).isSome :=
        (classifyFile_isSome fs base P).mpr (Or.inl h2)
      simp [h1, h2, hcs]
    · by_cases h3 : P ∈ base.map Prod.fst
      · have hcs : (classifyFile fs base P).isSome :=
          (classifyFile_isSome fs base P).mpr (Or.inr h3)
        simp [h1, h3, hcs]
      · have hcs : ¬ (classifyFile fs base P).isSome := by
          rw [classifyFile_isSome]
          simp [h2, h3]
        simp [h1, h2, h3, hcs]
  · by_cases h3 : P ∈ base.map Prod.fst
    · simp [h1, h3]
    · simp [h1, h3]

/-- Witness for `fim_c1_exactly_once_amended` at a concrete input. -/
theorem fim_c1_exactly_once_amended_witness :
    pathCount (verifyCore fsEmpty [("/a", "h1")] ["/x"]) "/a" = 1 := by
  have h := fim_c1_exactly_once_amended fsEmpty [("/a", "h1")] ["/x"]
    (by decide) (by decide) "/a"
  rw [h]
  decide

/-! ## Claim C3 -/

/-- C3 (counterexample): the claim that a currentPaths path whose
fingerprinting fails and which is absent from the baseline gets "a
distinct non-fatal Diff Entry" is false: for `currentPaths = ["/gone"]`
(a path that does not exist) and an empty baseline, the report is empty. -/
theorem fim_c3_counterexample :
    hashFile fsEmpty "/gone" = none ∧ lookupVal [] "/gone" = none ∧
      verifyCore fsEmpty [] ["/gone"] = [] := by
  refine ⟨rfl, rfl, ?_⟩
  decide

/-- C3 (amended): a currentPaths path whose fingerprinting fails and which
is absent from the loaded baseline receives no Diff Entry at all — it is
silently dropped from the report. -/
theorem fim_c3_amended (fs : FSys) (base : List (String × String)) (files : List String)
    (f : String) (_h1 : f ∈ files) (h2 : hashFile fs f = none)
    (h3 : lookupVal base f = none) :
    pathCount (verifyCore fs base files) f = 0 := by
  have hc : classifyFile fs base f = none := by
    unfold classifyFile
    rw [h2, h3]
    rfl
  have hnb : ¬ f ∈ base.map Prod.fst := by
    rw [← lookupVal_isSome]
    rw [h3]
    simp
  rw [verifyCore_eq, pathCount_append, pathCount_filterMap_none fs base f hc files,
    pathCount_deleted_zero files f base hnb]

/-- Witness for `fim_c3_amended` at a concrete input. -/
theorem fim_c3_amended_witness :
    pathCount (verifyCore fsEmpty [("/a", "h1")] ["/gone", "/a"]) "/gone" = 0 :=
  fim_c3_amended fsEmpty [("/a", "h1")] ["/gone", "/a"] "/gone"
    (by decide) (by decide) (by decide)

/-! ## Shape of the hex digest -/

theorem flatMap_byteToHex_length (l : List Nat) :
    (l.flatMap byteToHex).length = 2 * l.length := by
  induction l with
  | nil => simp
  | cons b t ih => simp [List.flatMap_cons, byteToHex, ih]; omega

theorem sha256_length (m : List Nat) : (sha256 m).length = 32 := by
  simp [sha256, wordBytes]

theorem sha256hex_length (m : List Nat) : (sha256hex m).length = 64 := by
  show ((sha256 m).flatMap byteToHex).length = 64
  rw [flatMap_byteToHex_length, sha256_length]

theorem sha256hex_ne_empty (m : List Nat) : sha256hex m ≠ "" := by
  intro h
  have h2 := congrArg String.length h
  rw [sha256hex_length] at h2
  exact absurd h2 (by decide)

theorem sha256_byte_lt (m : List Nat) : ∀ b ∈ sha256 m, b < 256 := by
  intro b hb
  simp only [sha256, wordBytes, List.mem_append, List.mem_cons,
    List.not_mem_nil, or_false] at hb
  omega

theorem hexDigitChar_shape (n : Nat) (h : n < 16) :
    (hexDigitChar n).isDigit = true ∨ ('a' ≤ hexDigitChar n ∧ hexDigitChar n ≤ 'f') := by
  interval_cases n <;> decide

theorem sha256hex_chars (m : List Nat) :
    ∀ ch ∈ (sha256hex m).data, ch.isDigit = true ∨ ('a' ≤ ch ∧ ch ≤ 'f') := by
  intro ch hch
  have hch2 : ch ∈ (sha256 m).flatMap byteToHex := hch
  rw [List.mem_flatMap] at hch2
  obtain ⟨b, hb, hcb⟩ := hch2
  have hblt : b < 256 := sha256_byte_lt m b hb
  simp only [byteToHex, List.mem_cons, List.not_mem_nil, or_false] at hcb
  rcases hcb with h | h
  · rw [h]
    apply hexDigitChar_shape
    rw [Nat.shiftRight_eq_div_pow]
    omega
  · rw [h]
    apply hexDigitChar_shape
    exact Nat.mod_lt b (by omega)

theorem hashFile_ne_empty (fs : FSys) (p h : String)
    (hh : hashFile fs p = some h) : h ≠ "" := by
  unfold hashFile at hh
  by_cases hd : p ∈ fs.denied
  · rw [if_pos hd] at hh; exact absurd hh (by simp)
  · rw [if_neg hd] at hh
    rcases hc : fs.content p with _ | c <;> rw [hc] at hh
    · exact absurd hh (by simp)
    · simp at hh
      rw [← hh]
      exact sha256hex_ne_empty c

theorem classifyFile_eq_none_none (fs : FSys) (base : List (String × String)) (f : String)
    (hh : hashFile fs f = none) (hl : lookupVal base f = none) :
    classifyFile fs base f = none := by
  unfold classifyFile
  rw [hh, hl]
  rfl

theorem classifyFile_eq_none_some (fs : FSys) (base : List (String × String)) (f old : String)
    (hh : hashFile fs f = none) (hl : lookupVal base f = some old) :
    classifyFile fs base f = some ⟨f, "DELETED", old, "", "File deleted"⟩ := by
  unfold classifyFile
  rw [hh, hl]
  rfl

theorem classifyFile_eq_some_none (fs : FSys) (base : List (String × String)) (f hv : String)
    (hh : hashFile fs f = some hv) (hl : lookupVal base f = none) :
    classifyFile fs base f = some ⟨f, "ADDED", "", hv, "New file"⟩ := by
  unfold classifyFile
  rw [hh, hl]

theorem classifyFile_eq_some_some (fs : FSys) (base : List (String × String)) (f hv old : String)
    (hh : hashFile fs f = some hv) (hl : lookupVal base f = some old) :
    classifyFile fs base f =
      if old ≠ hv then some ⟨f, "MODIFIED", old, hv, "Hash mismatch"⟩
      else some ⟨f, "OK", old, "", ""⟩ := by
  unfold classifyFile
  rw [hh, hl]

/-! ## Claim C7 -/

set_option maxRecDepth 40000 in
/-- C7 (counterexample): the claim that the new digest is present
(non-empty) for `OK` entries is false: verifying an unchanged file yields
an `OK` entry whose `NewHash` field is the empty string (main.go:139 builds
the record with an empty new hash). -/
theorem fim_c7_counterexample :
    verifyCore fsOne [("/a", sha256hex [104, 105])] ["/a"] =
      [⟨"/a", "OK", sha256hex [104, 105], "", ""⟩] ∧
    (⟨"/a", "OK", sha256hex [104, 105], "", ""⟩ : Report).NewHash = "" := by
  constructor
  · rfl
  · rfl

/-- C7 (amended): provided every digest stored in the loaded baseline is
non-empty, each Diff Entry carries: a non-empty old digest for `OK`,
`MODIFIED` and `DELETED`; a non-empty new digest for `MODIFIED` and
`ADDED`; but `OK` entries carry an empty new digest and `ADDED` entries an
empty old digest. -/
theorem fim_c7_digest_fields_amended (fs : FSys) (base : List (String × String))
    (files : List String) (hb : ∀ kv ∈ base, kv.2 ≠ "") (e : Report)
    (he : e ∈ verifyCore fs base files) :
    (e.Status = "OK" → e.OldHash ≠ "" ∧ e.NewHash = "") ∧
    (e.Status = "MODIFIED" → e.OldHash ≠ "" ∧ e.NewHash ≠ "") ∧
    (e.Status = "DELETED" → e.OldHash ≠ "" ∧ e.NewHash = "") ∧
    (e.Status = "ADDED" → e.OldHash = "" ∧ e.NewHash ≠ "") := by
  rw [verifyCore_eq, List.mem_append] at he
  rcases he with he | he
  · rw [List.mem_filterMap] at he
    obtain ⟨f, _, hcf⟩ := he
    rcases hh : hashFile fs f with _ | hv
    · rcases hl : lookupVal base f with _ | old
      · rw [classifyFile_eq_none_none fs base f hh hl] at hcf
        exact absurd hcf (by simp)
      · rw [classifyFile_eq_none_some fs base f old hh hl] at hcf
        have hold : old ≠ "" := hb (f, old) (lookupVal_mem base f old hl)
        simp at hcf
        rw [← hcf]
        refine ⟨?_, ?_, ?_, ?_⟩ <;> intro hst <;> simp_all
    · have hvne : hv ≠ "" := hashFile_ne_empty fs f hv hh
      rcases hl : lookupVal base f with _ | old
      · rw [classifyFile_eq_some_none fs base f hv hh hl] at hcf
        simp at hcf
        rw [← hcf]
        refine ⟨?_, ?_, ?_, ?_⟩ <;> intro hst <;> simp_all
      · have hold : old ≠ "" := hb (f, old) (lookupVal_mem base f old hl)
        rw [classifyFile_eq_some_some fs base f hv old hh hl] at hcf
        by_cases hne : old ≠ hv
        · rw [if_pos hne] at hcf
          simp at hcf
          rw [← hcf]
          refine ⟨?_, ?_, ?_, ?_⟩ <;> intro hst <;> simp_all
        · rw [if_neg hne] at hcf
          simp at hcf
          rw [← hcf]
          refine ⟨?_, ?_, ?_, ?_⟩ <;> intro hst <;> simp_all
  · rw [List.mem_map] at he
    obtain ⟨p, hp, hpe⟩ := he
    have hpb : p ∈ base := List.mem_of_mem_filter hp
    have hold : p.2 ≠ "" := hb p hpb
    rw [← hpe]
    unfold deletedEntry
    refine ⟨?_, ?_, ?_, ?_⟩ <;> intro hst <;> simp_all

/-- Witness for `fim_c7_digest_fields_amended` at a concrete input. -/
theorem fim_c7_digest_fields_amended_witness :
    (⟨"/a", "DELETED", "h1", "", "File deleted"⟩ : Report).OldHash ≠ "" ∧
    (⟨"/a", "DELETED", "h1", "", "File deleted"⟩ : Report).NewHash = "" :=
  (fim_c7_digest_fields_amended fsEmpty [("/a", "h1")] [] (by decide)
    ⟨"/a", "DELETED", "h1", "", "File deleted"⟩ (by decide)).2.2.1 rfl

/-! ## Claim C8 -/

/-- C8: `hashFile` returns the lowercase hexadecimal SHA-256 digest of the
file's byte content and depends only on that content: filesystems that
agree on files and permissions but differ in modification times produce
identical digests and identical verification reports, and every digest is
a 64-character string over `0-9a-f`. -/
theorem fim_c8_content_only (fs1 fs2 : FSys) (hfiles : fs1.files = fs2.files)
    (hden : fs1.denied = fs2.denied) :
    (∀ p, hashFile fs1 p = hashFile fs2 p) ∧
    (∀ base files, verifyCore fs1 base files = verifyCore fs2 base files) ∧
    (∀ p c, fs1.content p = some c → ¬ p ∈ fs1.denied →
      hashFile fs1 p = some (sha256hex c)) ∧
    (∀ c, (sha256hex c).length = 64 ∧
      ∀ ch ∈ (sha256hex c).data, ch.isDigit = true ∨ ('a' ≤ ch ∧ ch ≤ 'f')) := by
  have hh : ∀ p, hashFile fs1 p = hashFile fs2 p := by
    intro p
    unfold hashFile FSys.content
    rw [hfiles, hden]
  refine ⟨hh, ?_, ?_, ?_⟩
  · intro base files
    have hcl : classifyFile fs1 base = classifyFile fs2 base := by
      funext f
      unfold classifyFile
      rw [hh f]
    rw [verifyCore_eq, verifyCore_eq, hcl]
  · intro p c hc hd
    simp [hashFile, hd, hc]
  · intro c
    exact ⟨sha256hex_length c, sha256hex_chars c⟩

/-- Witness for `fim_c8_content_only`: touching the mtime of `/a` changes
neither its digest nor the verification outcome. -/
theorem fim_c8_content_only_witness :
    hashFile fsOne "/a" = hashFile fsOneTouched "/a" ∧
    fsOne.mtime "/a" ≠ fsOneTouched.mtime "/a" ∧
    hashFile fsOne "/a" = some (sha256hex [104, 105]) := by
  have h := fim_c8_content_only fsOne fsOneTouched rfl rfl
  exact ⟨h.1 "/a", by decide, h.2.2.1 "/a" [104, 105] rfl (by decide)⟩

/-! ## Claim C10 -/

/-- C10: with an empty explicit list and a root path that does not exist,
`collectFiles` returns an empty list and no error, and a subsequent
verification over that empty collection classifies every baseline path as
`DELETED` instead of aborting. -/
theorem fim_c10_missing_root (fs : FSys) (cwd root base : String)
    (bl : List (String × String))
    (h1 : ¬ filepathAbs cwd root ∈ fs.denied)
    (h2 : ¬ filepathAbs cwd root ∈ fs.dirs)
    (h3 : ¬ filepathAbs cwd root ∈ fs.fileKeys) :
    collectFiles fs cwd root [] base = .ok [] ∧
    verifyCore fs bl [] = bl.map deletedEntry ∧
    ∀ e ∈ verifyCore fs bl [], e.Status = "DELETED" := by
  have hmap : verifyCore fs bl [] = bl.map deletedEntry := by
    rw [verifyCore_eq]
    simp
  refine ⟨?_, hmap, ?_⟩
  · have hcol : collectFiles fs cwd root [] base = addFile fs cwd root [] := by
      unfold collectFiles
      rw [if_neg]
      simp
    rw [hcol]
    unfold addFile
    simp only
    rw [if_neg h1, if_neg h2, if_neg h3]
  · intro e he
    rw [hmap, List.mem_map] at he
    obtain ⟨p, _, hpe⟩ := he
    rw [← hpe]
    rfl

/-- Witness for `fim_c10_missing_root` at a concrete input. -/
theorem fim_c10_missing_root_witness :
    collectFiles fsOne "/c" "/nope" [] "" = .ok [] ∧
    verifyCore fsOne [("/x", "h1"), ("/y", "h2")] [] =
      ([("/x", "h1"), ("/y", "h2")]).map deletedEntry := by
  have h := fim_c10_missing_root fsOne "/c" "/nope" "" [("/x", "h1"), ("/y", "h2")]
    (by decide) (by decide) (by decide)
  exact ⟨h.1, h.2.1⟩

/-! ## Claim C6 -/

/-- C6 (counterexample): the claim that `collectFiles` deduplicates is
false: with `/d/f` both listed directly and contained in the listed
directory `/d`, the result contains `/d/f` twice. -/
theorem fim_c6_counterexample :
    collectFiles fsDirDup "/c" "." ["/d/f", "/d"] "" = .ok ["/d/f", "/d/f"] ∧
    ¬ ((["/d/f", "/d/f"] : List String).count "/d/f" = 1) := by
  constructor
  · rfl
  · decide

/-- C6 (amended): `collectFiles` performs no deduplication: a file listed
directly in the explicit list and also contained in a listed directory
appears at least twice in the result (once per reachable route). -/
theorem fim_c6_no_dedup_amended (fs : FSys) (cwd f d : String)
    (hfabs : strHasPrefix "/" f = true) (hdabs : strHasPrefix "/" d = true)
    (hffile : f ∈ fs.fileKeys) (hfden : ¬ f ∈ fs.denied) (hfdir : ¬ f ∈ fs.dirs)
    (hddir : d ∈ fs.dirs) (hdden : ¬ d ∈ fs.denied) (hdwalk : walkDenied fs d = false)
    (hunder : underDir d f = true) :
    collectFiles fs cwd "." [f, d] "" = .ok (f :: walkFiles fs d) ∧
    2 ≤ (f :: walkFiles fs d).count f := by
  have habs1 : filepathAbs cwd f = f := by
    unfold filepathAbs
    rw [if_pos hfabs]
  have habs2 : filepathAbs cwd d = d := by
    unfold filepathAbs
    rw [if_pos hdabs]
  have hadd1 : addFile fs cwd f [] = .ok [f] := by
    unfold addFile
    simp only [habs1]
    rw [if_neg hfden, if_neg hfdir, if_pos hffile]
    rfl
  have hadd2 : addFile fs cwd d [f] = .ok (f :: walkFiles fs d) := by
    unfold addFile
    simp only [habs2]
    rw [if_neg hdden, if_pos hddir]
    simp only [hdwalk, Bool.false_eq_true, if_false]
    rfl
  constructor
  · unfold collectFiles
    rw [if_pos (by simp : (([f, d] : List String)).length > 0)]
    simp only [List.foldlM_cons, List.foldlM_nil, ne_eq, not_true_eq_false, false_and,
      if_false, hadd1, hadd2]
    simp only [bind, Except.bind, pure, Except.pure, hadd2]
  · have hmem : f ∈ walkFiles fs d := by
      unfold walkFiles
      rw [List.mem_filter]
      exact ⟨hffile, hunder⟩
    have hpos : 0 < (walkFiles fs d).count f := List.count_pos_iff.mpr hmem
    rw [List.count_cons_self]
    omega

/-- Witness for `fim_c6_no_dedup_amended` at a concrete input. -/
theorem fim_c6_no_dedup_amended_witness :
    collectFiles fsDirDup "/c" "." ["/d/f", "/d"] "" =
      .ok ("/d/f" :: walkFiles fsDirDup "/d") ∧
    2 ≤ ("/d/f" :: walkFiles fsDirDup "/d").count "/d/f" :=
  fim_c6_no_dedup_amended fsDirDup "/c" "/d/f" "/d" (by decide) (by decide) (by decide)
    (by decide) (by decide) (by decide) (by decide) (by decide) (by decide)

/-! ## Claim C5 -/

/-- C5 (code defect, demonstrated): the final `range base` sweep of
`verifyBaseline` (main.go:146-150) iterates a Go map, whose iteration
order is randomized per run. The same loaded baseline presented in two
iteration orders — the two association lists below are permutations of one
another, i.e. the same finite map — yields reports that are equal as
multisets but differently ordered, so two runs over an unchanged
filesystem need not produce identical Diff Entry sequences. -/
theorem fim_c5_order_nondeterminism :
    ([("/a", "h1"), ("/b", "h2")] : List (String × String)).Perm
      [("/b", "h2"), ("/a", "h1")] ∧
    verifyCore fsEmpty [("/a", "h1"), ("/b", "h2")] [] ≠
      verifyCore fsEmpty [("/b", "h2"), ("/a", "h1")] [] ∧
    (verifyCore fsEmpty [("/a", "h1"), ("/b", "h2")] []).Perm
      (verifyCore fsEmpty [("/b", "h2"), ("/a", "h1")] []) := by
  refine ⟨by decide, by decide, by decide⟩

/-! ## Claim C4 -/

set_option maxRecDepth 40000 in
/-- C4 (code defect, demonstrated): the exit decision after verification
(main.go:243-246) exits non-zero whenever the report is non-empty, even
when every entry is `OK` — here the report of an unchanged file is the
single `OK` entry shown, yet the exit code is 1, contradicting both the
claim and the source comment "Exit with non-zero if changes were
detected". -/
theorem fim_c4_exit_nonzero_on_allok :
    verifyCore fsOne [("/a", sha256hex [104, 105])] ["/a"] =
      [⟨"/a", "OK", sha256hex [104, 105], "", ""⟩] ∧
    verifyExitCode (verifyCore fsOne [("/a", sha256hex [104, 105])] ["/a"]) = 1 := by
  exact ⟨rfl, rfl⟩

/-! ## Claim C2 -/

set_option maxRecDepth 40000 in
/-- C2 (code defect, demonstrated): `verifyBaseline` returns an error for
an unreadable baseline, but the error of `json.Unmarshal` (main.go:121) is
discarded, so a baseline file whose content is not valid JSON ("not json"
fails to parse) still produces a report — the baseline is silently treated
as empty and the readable current file is classified `ADDED`. -/
theorem fim_c2_unmarshal_error_ignored :
    jsonUnmarshalBaseline "not json" = none ∧
    verifyBaseline none fsOne ["/a"] = none ∧
    verifyBaseline (some "not json") fsOne ["/a"] =
      some [⟨"/a", "ADDED", "", sha256hex [104, 105], "New file"⟩] := by
  exact ⟨rfl, rfl, rfl⟩

/-! ## Round-trip of the persisted baseline: string level -/

theorem hexVal_hexDigitChar (n : Nat) (h : n < 16) :
    hexVal (hexDigitChar n) = some n := by
  interval_cases n <;> decide

theorem encChar_length_pos (c : Char) : 1 ≤ (encChar c).length := by
  unfold encChar
  split
  · simp
  split
  · simp
  split
  · simp
  split
  · simp
  split
  · simp
  split
  · simp
  simp

theorem flatMap_encChar_length (l : List Char) :
    l.length ≤ (l.flatMap encChar).length := by
  induction l with
  | nil => simp
  | cons c t ih =>
    rw [List.flatMap_cons, List.length_append, List.length_cons]
    have := encChar_length_pos c
    omega

theorem parseU_nonsurrogate (r : List Char) (a b c d : Char) (n : Nat)
    (h4 : hex4 a b c d = some n) (hn1 : ¬ (0xD800 ≤ n ∧ n < 0xDC00))
    (hn2 : ¬ (0xDC00 ≤ n ∧ n < 0xE000)) :
    parseU (a :: b :: c :: d :: r) = some (Char.ofNat n, r) := by
  simp only [parseU, h4]
  rw [if_neg hn1, if_neg hn2]

theorem parseStrBody_esc (fuel : Nat) (es r2 : List Char) (ch : Char)
    (h : parseEsc es = some (ch, r2)) :
    parseStrBody (fuel + 1) ('\\' :: es) = mapConsChar ch (parseStrBody fuel r2) := by
  simp [parseStrBody, h]

theorem parseStrBody_raw (fuel : Nat) (rest : List Char) (c : Char) (h1 : ¬ c = '"')
    (h2 : ¬ c = '\\') (h3 : ¬ c.toNat < 0x20) :
    parseStrBody (fuel + 1) (c :: rest) = mapConsChar c (parseStrBody fuel rest) := by
  simp [parseStrBody, h1, h2, h3]

theorem parseStrBody_encChar (c : Char) (fuel : Nat) (rest : List Char) :
    parseStrBody (fuel + 1) (encChar c ++ rest) = mapConsChar c (parseStrBody fuel rest) := by
  unfold encChar
  by_cases h1 : c = '"' ∨ c = '\\'
  · rw [if_pos h1]
    rcases h1 with h | h <;> subst h <;> simp [parseStrBody, parseEsc]
  · rw [if_neg h1]
    push_neg at h1
    by_cases h2 : c = '\n'
    · rw [if_pos h2]; subst h2; simp [parseStrBody, parseEsc]
    rw [if_neg h2]
    by_cases h3 : c = '\r'
    · rw [if_pos h3]; subst h3; simp [parseStrBody, parseEsc]
    rw [if_neg h3]
    by_cases h4 : c = '\t'
    · rw [if_pos h4]; subst h4; simp [parseStrBody, parseEsc]
    rw [if_neg h4]
    by_cases h5 : c.toNat < 0x20 ∨ c = '<' ∨ c = '>' ∨ c = '&'
    · rw [if_pos h5]
      have hlt : c.toNat < 256 := by
        rcases h5 with h | h | h | h
        · omega
        · subst h; decide
        · subst h; decide
        · subst h; decide
      have hi : c.toNat >>> 4 < 16 := by
        rw [Nat.shiftRight_eq_div_pow]
        omega
      have e1 : hexVal (hexDigitChar (c.toNat >>> 4)) = some (c.toNat >>> 4) :=
        hexVal_hexDigitChar _ hi
      have e2 : hexVal (hexDigitChar (c.toNat % 16)) = some (c.toNat % 16) :=
        hexVal_hexDigitChar _ (Nat.mod_lt _ (by omega))
      have hx : hex4 '0' '0' (hexDigitChar (c.toNat >>> 4)) (hexDigitChar (c.toNat % 16)) =
          some c.toNat := by
        have hv : ((0 * 16 + 0) * 16 + c.toNat >>> 4) * 16 + c.toNat % 16 = c.toNat := by
          rw [Nat.shiftRight_eq_div_pow]
          omega
        simp only [hex4, e1, e2, show hexVal '0' = some 0 from rfl]
        exact congrArg some hv
      have hu : parseU ('0' :: '0' :: hexDigitChar (c.toNat >>> 4) ::
          hexDigitChar (c.toNat % 16) :: rest) = some (Char.ofNat c.toNat, rest) :=
        parseU_nonsurrogate rest _ _ _ _ c.toNat hx (by omega) (by omega)
      have hesc : parseEsc ('u' :: '0' :: '0' :: hexDigitChar (c.toNat >>> 4) ::
          hexDigitChar (c.toNat % 16) :: rest) = some (Char.ofNat c.toNat, rest) := by
        simp [parseEsc, hu]
      rw [List.cons_append, List.cons_append, List.cons_append, List.cons_append,
        List.cons_append, List.cons_append, List.nil_append]
      rw [parseStrBody_esc fuel _ rest (Char.ofNat c.toNat) hesc, Char.ofNat_toNat]
    rw [if_neg h5]
    push_neg at h5
    by_cases h6 : c.toNat = 0x2028 ∨ c.toNat = 0x2029
    · rw [if_pos h6]
      have e2 : hexVal (hexDigitChar (c.toNat % 16)) = some (c.toNat % 16) :=
        hexVal_hexDigitChar _ (Nat.mod_lt _ (by omega))
      have hx : hex4 '2' '0' '2' (hexDigitChar (c.toNat % 16)) = some c.toNat := by
        have hv : ((2 * 16 + 0) * 16 + 2) * 16 + c.toNat % 16 = c.toNat := by
          rcases h6 with h | h <;> omega
        simp only [hex4, e2, show hexVal '2' = some 2 from rfl,
          show hexVal '0' = some 0 from rfl]
        exact congrArg some hv
      have hu : parseU ('2' :: '0' :: '2' :: hexDigitChar (c.toNat % 16) :: rest) =
          some (Char.ofNat c.toNat, rest) :=
        parseU_nonsurrogate rest _ _ _ _ c.toNat hx (by omega) (by omega)
      have hesc : parseEsc ('u' :: '2' :: '0' :: '2' :: hexDigitChar (c.toNat % 16) :: rest) =
          some (Char.ofNat c.toNat, rest) := by
        simp [parseEsc, hu]
      rw [List.cons_append, List.cons_append, List.cons_append, List.cons_append,
        List.cons_append, List.cons_append, List.nil_append]
      rw [parseStrBody_esc fuel _ rest (Char.ofNat c.toNat) hesc, Char.ofNat_toNat]
    rw [if_neg h6]
    rw [List.cons_append, List.nil_append]
    exact parseStrBody_raw fuel rest c h1.1 h1.2 (by omega)

theorem parseStrBody_encList (l : List Char) : ∀ (fuel : Nat) (rest : List Char),
    l.length < fuel →
    parseStrBody fuel (l.flatMap encChar ++ '"' :: rest) = some (l, rest) := by
  induction l with
  | nil =>
    intro fuel rest hf
    rcases fuel with _ | f
    · omega
    · simp [parseStrBody]
  | cons c t ih =>
    intro fuel rest hf
    rcases fuel with _ | f
    · omega
    · rw [List.flatMap_cons, List.append_assoc, parseStrBody_encChar,
        ih f rest (by simpa using Nat.lt_of_succ_lt_succ hf)]
      rfl

theorem parseJString_encStr (s : String) (rest : List Char) :
    parseJString (encStr s ++ rest) = some (s, rest) := by
  unfold encStr parseJString
  simp only [List.cons_append, List.append_assoc, List.singleton_append,
    List.nil_append, if_true]
  have hlen : s.data.length < (s.data.flatMap encChar ++ '"' :: rest).length := by
    rw [List.length_append, List.length_cons]
    have := flatMap_encChar_length s.data
    omega
  rw [parseStrBody_encList s.data _ rest hlen]
  rfl

/-! ## Round-trip of the persisted baseline: object level -/

theorem skipWS_not_ws (c : Char) (r : List Char) (h : isWSChar c = false) :
    skipWS (c :: r) = c :: r := by
  simp [skipWS, h]

theorem skipWS_ws_cons (c : Char) (r : List Char) (h : isWSChar c = true) :
    skipWS (c :: r) = skipWS r := by
  simp [skipWS, h]

theorem skipWS_encStr (s : String) (rest : List Char) :
    skipWS (encStr s ++ rest) = encStr s ++ rest := by
  unfold encStr
  simp only [List.cons_append]
  exact skipWS_not_ws _ _ (by decide)

theorem renderTail_head (q : String × String) (qs : List (String × String)) :
    ∃ t, renderTail (q :: qs) = '"' :: t := by
  rcases qs with _ | ⟨q2, qs2⟩
  · exact ⟨_, rfl⟩
  · exact ⟨_, rfl⟩

theorem renderTail_skipWS (q : String × String) (qs : List (String × String))
    (rest : List Char) :
    skipWS (renderTail (q :: qs) ++ rest) = renderTail (q :: qs) ++ rest := by
  obtain ⟨t, ht⟩ := renderTail_head q qs
  rw [ht, List.cons_append]
  exact skipWS_not_ws _ _ (by decide)

theorem renderTail_length : ∀ (ps : List (String × String)) (p : String × String),
    (p :: ps).length < (renderTail (p :: ps)).length := by
  intro ps
  induction ps with
  | nil =>
    intro p
    simp [renderTail, renderEntry, encStr]
  | cons q qs ih =>
    intro p
    have hq := ih q
    simp only [renderTail, renderEntry, encStr, List.cons_append, List.append_assoc,
      List.length_append, List.length_cons] at hq ⊢
    simp at hq ⊢
    omega

theorem parseMembers_step_comma (f : Nat) (cs : List Char) (k v : String)
    (r1 r2 r3 r4 : List Char)
    (hk : parseJString cs = some (k, r1))
    (h1 : skipWS r1 = ':' :: r2)
    (hv : parseJString (skipWS r2) = some (v, r3))
    (h3 : skipWS r3 = ',' :: r4) :
    parseMembers (f + 1) cs =
      (parseMembers f (skipWS r4)).map (fun p => ((k, v) :: p.1, p.2)) := by
  simp [parseMembers, hk, h1, hv, h3]

theorem parseMembers_step_close (f : Nat) (cs : List Char) (k v : String)
    (r1 r2 r3 r4 : List Char)
    (hk : parseJString cs = some (k, r1))
    (h1 : skipWS r1 = ':' :: r2)
    (hv : parseJString (skipWS r2) = some (v, r3))
    (h3 : skipWS r3 = '}' :: r4) :
    parseMembers (f + 1) cs = some ([(k, v)], r4) := by
  simp [parseMembers, hk, h1, hv, h3]

theorem parseMembers_renderTail : ∀ (ps : List (String × String)) (p : String × String)
    (fuel : Nat) (rest : List Char), ps.length < fuel →
    parseMembers fuel (renderTail (p :: ps) ++ rest) = some (p :: ps, rest) := by
  intro ps
  induction ps with
  | nil =>
    intro p fuel rest hf
    rcases fuel with _ | f
    · omega
    have hshape : renderTail [p] ++ rest =
        encStr p.1 ++ (':' :: ' ' :: (encStr p.2 ++ '\n' :: ' ' :: ' ' :: '}' :: rest)) := by
      simp [renderTail, renderEntry, List.cons_append, List.append_assoc]
    rw [hshape]
    have hk := parseJString_encStr p.1
      (':' :: ' ' :: (encStr p.2 ++ '\n' :: ' ' :: ' ' :: '}' :: rest))
    have h1 : skipWS (':' :: ' ' :: (encStr p.2 ++ '\n' :: ' ' :: ' ' :: '}' :: rest)) =
        ':' :: (' ' :: (encStr p.2 ++ '\n' :: ' ' :: ' ' :: '}' :: rest)) :=
      skipWS_not_ws _ _ (by decide)
    have hv : parseJString (skipWS (' ' :: (encStr p.2 ++ '\n' :: ' ' :: ' ' :: '}' :: rest))) =
        some (p.2, '\n' :: ' ' :: ' ' :: '}' :: rest) := by
      rw [skipWS_ws_cons _ _ (by decide), skipWS_encStr]
      exact parseJString_encStr p.2 _
    have h3 : skipWS ('\n' :: ' ' :: ' ' :: '}' :: rest) = '}' :: rest := by
      rw [skipWS_ws_cons _ _ (by decide), skipWS_ws_cons _ _ (by decide),
        skipWS_ws_cons _ _ (by decide)]
      exact skipWS_not_ws _ _ (by decide)
    rw [parseMembers_step_close f _ p.1 p.2 _ _ _ _ hk h1 hv h3]
  | cons q qs ih =>
    intro p fuel rest hf
    rcases fuel with _ | f
    · omega
    have hshape : renderTail (p :: q :: qs) ++ rest =
        encStr p.1 ++ (':' :: ' ' :: (encStr p.2 ++
          ',' :: '\n' :: ' ' :: ' ' :: ' ' :: ' ' :: (renderTail (q :: qs) ++ rest))) := by
      simp [renderTail, renderEntry, List.cons_append, List.append_assoc]
    rw [hshape]
    have hk := parseJString_encStr p.1 (':' :: ' ' :: (encStr p.2 ++
      ',' :: '\n' :: ' ' :: ' ' :: ' ' :: ' ' :: (renderTail (q :: qs) ++ rest)))
    have h1 : skipWS (':' :: ' ' :: (encStr p.2 ++
        ',' :: '\n' :: ' ' :: ' ' :: ' ' :: ' ' :: (renderTail (q :: qs) ++ rest))) =
        ':' :: (' ' :: (encStr p.2 ++
          ',' :: '\n' :: ' ' :: ' ' :: ' ' :: ' ' :: (renderTail (q :: qs) ++ rest))) :=
      skipWS_not_ws _ _ (by decide)
    have hv : parseJString (skipWS (' ' :: (encStr p.2 ++
        ',' :: '\n' :: ' ' :: ' ' :: ' ' :: ' ' :: (renderTail (q :: qs) ++ rest)))) =
        some (p.2, ',' :: '\n' :: ' ' :: ' ' :: ' ' :: ' ' :: (renderTail (q :: qs) ++ rest)) := by
      rw [skipWS_ws_cons _ _ (by decide), skipWS_encStr]
      exact parseJString_encStr p.2 _
    have h3 : skipWS (',' :: '\n' :: ' ' :: ' ' :: ' ' :: ' ' :: (renderTail (q :: qs) ++ rest)) =
        ',' :: ('\n' :: ' ' :: ' ' :: ' ' :: ' ' :: (renderTail (q :: qs) ++ rest)) :=
      skipWS_not_ws _ _ (by decide)
    rw [parseMembers_step_comma f _ p.1 p.2 _ _ _ _ hk h1 hv h3]
    have h4 : skipWS ('\n' :: ' ' :: ' ' :: ' ' :: ' ' :: (renderTail (q :: qs) ++ rest)) =
        renderTail (q :: qs) ++ rest := by
      rw [skipWS_ws_cons _ _ (by decide), skipWS_ws_cons _ _ (by decide),
        skipWS_ws_cons _ _ (by decide), skipWS_ws_cons _ _ (by decide),
        skipWS_ws_cons _ _ (by decide)]
      exact renderTail_skipWS q qs rest
    rw [h4, ih q f rest (by simpa using Nat.lt_of_succ_lt_succ hf)]
    rfl

theorem jsonUnmarshal_obj (s : String) (r : List Char) (c2 : Char) (r2 : List Char)
    (l : List (String × String))
    (h0 : skipWS s.data = '{' :: r)
    (h1 : skipWS r = c2 :: r2)
    (h2 : ¬ c2 = '}')
    (h3 : parseMembers (r2.length + 1) (c2 :: r2) = some (l, [])) :
    jsonUnmarshalBaseline s = some l := by
  simp [jsonUnmarshalBaseline, h0, h1, h2, h3, skipWS]

theorem jsonUnmarshal_renderObj (l : List (String × String)) :
    jsonUnmarshalBaseline (String.mk (renderObj l)) = some l := by
  rcases l with _ | ⟨p, ps⟩
  · rfl
  · obtain ⟨t, ht⟩ := renderTail_head p ps
    have hdata : (String.mk (renderObj (p :: ps))).data = renderObj (p :: ps) := rfl
    have hro : renderObj (p :: ps) =
        '\x7b' :: '\n' :: ' ' :: ' ' :: ' ' :: ' ' :: renderTail (p :: ps) := rfl
    apply jsonUnmarshal_obj (String.mk (renderObj (p :: ps)))
      ('\n' :: ' ' :: ' ' :: ' ' :: ' ' :: renderTail (p :: ps)) '"' t (p :: ps)
    · rw [hdata, hro]
      exact skipWS_not_ws _ _ (by decide)
    · rw [skipWS_ws_cons _ _ (by decide), skipWS_ws_cons _ _ (by decide),
        skipWS_ws_cons _ _ (by decide), skipWS_ws_cons _ _ (by decide),
        skipWS_ws_cons _ _ (by decide), ht]
      exact skipWS_not_ws _ _ (by decide)
    · decide
    · have hlen : ps.length < (renderTail (p :: ps)).length := by
        have hrt := renderTail_length ps p
        simp only [List.length_cons] at hrt
        omega
      have hpm := parseMembers_renderTail ps p (renderTail (p :: ps)).length [] hlen
      rw [List.append_nil, ht] at hpm
      exact hpm

/-! ## Building the Go map and lookups under permutation -/

theorem mapInsert_not_mem (m : List (String × String)) (k v : String)
    (h : ¬ k ∈ m.map Prod.fst) : mapInsert m k v = m ++ [(k, v)] := by
  unfold mapInsert
  rw [if_neg]
  intro hany
  obtain ⟨x, hx, hxk⟩ := List.any_eq_true.mp hany
  simp at hxk
  exact h (List.mem_map.mpr ⟨x, hx, hxk⟩)

theorem foldl_mapInsert : ∀ (l acc : List (String × String)),
    ((acc ++ l).map Prod.fst).Nodup →
    l.foldl (fun m p => mapInsert m p.1 p.2) acc = acc ++ l := by
  intro l
  induction l with
  | nil => intro acc _; simp
  | cons p t ih =>
    intro acc hnd
    rw [List.foldl_cons]
    have hknot : ¬ p.1 ∈ acc.map Prod.fst := by
      rw [List.map_append] at hnd
      have hdisj := (List.nodup_append.mp hnd).2.2
      intro hmem
      exact hdisj hmem (by simp)
    rw [mapInsert_not_mem acc p.1 p.2 hknot]
    have heta : acc ++ [(p.1, p.2)] = acc ++ [p] := rfl
    rw [heta]
    have hnd2 : (((acc ++ [p]) ++ t).map Prod.fst).Nodup := by
      rw [List.append_assoc, List.singleton_append]
      exact hnd
    rw [ih (acc ++ [p]) hnd2, List.append_assoc, List.singleton_append]

theorem buildMap_self (l : List (String × String)) (h : (l.map Prod.fst).Nodup) :
    buildMap l = l := by
  unfold buildMap
  have hfold := foldl_mapInsert l [] (by simpa using h)
  simpa using hfold

theorem lookupVal_perm : ∀ {l1 l2 : List (String × String)}, l1.Perm l2 →
    (l1.map Prod.fst).Nodup → ∀ k, lookupVal l1 k = lookupVal l2 k := by
  intro l1 l2 h
  induction h with
  | nil => intro _ _; rfl
  | cons x _ ih =>
    intro hnd k
    simp only [List.map_cons, List.nodup_cons] at hnd
    unfold lookupVal
    rw [List.find?_cons, List.find?_cons]
    by_cases hx : x.1 = k
    · simp [hx]
    · have hb : (x.1 == k) = false := by simp [hx]
      rw [hb]
      exact ih hnd.2 k
  | swap x y l =>
    intro hnd k
    simp only [List.map_cons, List.nodup_cons, List.mem_cons] at hnd
    have hxy : ¬ y.1 = x.1 := fun he => hnd.1 (Or.inl he)
    by_cases h1 : y.1 = k <;> by_cases h2 : x.1 = k
    · exact absurd (h1.trans h2.symm) hxy
    all_goals simp [lookupVal, List.find?_cons, h1, h2]
  | trans h1 _ ih1 ih2 =>
    intro hnd k
    rw [ih1 hnd k]
    exact ih2 (((h1.map Prod.fst).nodup_iff).mp hnd) k

/-! ## Claim C9 -/

/-- C9: the baseline serialization round-trips: for every baseline mapping
with unique path keys — including empty, single and multi-entry maps, and
path keys containing spaces or non-ASCII characters — unmarshalling the
marshalled artifact recovers exactly the key-sorted entry sequence, which
is a permutation of the original with identical lookups, i.e. the same
mapping. -/
theorem fim_c9_roundtrip (b : List (String × String)) (hb : (b.map Prod.fst).Nodup) :
    loadBaseline (marshalBaseline b) = some (sortByKey b) ∧
    (sortByKey b).Perm b ∧
    (∀ k, lookupVal (sortByKey b) k = lookupVal b k) := by
  have hperm : (sortByKey b).Perm b := List.perm_insertionSort _ b
  have hnds : ((sortByKey b).map Prod.fst).Nodup :=
    ((hperm.map Prod.fst).nodup_iff).mpr hb
  refine ⟨?_, hperm, fun k => lookupVal_perm hperm hnds k⟩
  unfold loadBaseline marshalBaseline
  rw [jsonUnmarshal_renderObj (sortByKey b)]
  show some (buildMap (sortByKey b)) = some (sortByKey b)
  rw [buildMap_self _ hnds]

/-- Witness for `fim_c9_roundtrip` on a two-entry baseline whose paths
contain spaces and non-ASCII characters. -/
theorem fim_c9_roundtrip_witness :
    loadBaseline (marshalBaseline [("/tmp/β b.txt", "02"), ("/tmp/a α.txt", "01")]) =
      some (sortByKey [("/tmp/β b.txt", "02"), ("/tmp/a α.txt", "01")]) ∧
    lookupVal (sortByKey [("/tmp/β b.txt", "02"), ("/tmp/a α.txt", "01")]) "/tmp/a α.txt" =
      lookupVal [("/tmp/β b.txt", "02"), ("/tmp/a α.txt", "01")] "/tmp/a α.txt" := by
  have h := fim_c9_roundtrip [("/tmp/β b.txt", "02"), ("/tmp/a α.txt", "01")] (by decide)
  exact ⟨h.1, h.2.2 "/tmp/a α.txt"⟩

end FIM
